import Mathlib

/-!
Verification development for the DP3 BDA direction-dependent calibration
step (`src/steps/BdaDdeCal.cc`) and the solver base class
(`src/ddecal/gain_solvers/SolverBase.h`).

Real quantities (frequencies, weights) are embedded as rationals; complex
visibility and solution values are embedded as pairs of rationals
(real part, imaginary part), with componentwise addition.
-/

namespace DP3

/-- Complex values are embedded as (real, imaginary) pairs of rationals. -/
abbrev Cx := ℚ × ℚ

/-! ## SolverBase (src/ddecal/gain_solvers/SolverBase.h) -/

/-- Embedding of `SolverBase::ReachedStoppingCriterion`
(src/ddecal/gain_solvers/SolverBase.h lines 197-208).  The member fields
`detect_stalling_`, `min_iterations_` and `max_iterations_` are passed
explicitly, and the private member function `DetectStall` (whose body is
declared but not defined in the header) is passed as an abstract predicate
`detectStall` on the iteration number and the step-magnitude history. -/
def ReachedStoppingCriterion (detect_stalling : Bool)
    (min_iterations max_iterations : Nat)
    (detectStall : Nat → List ℚ → Bool)
    (iteration : Nat) (has_converged constraints_satisfied : Bool)
    (step_magnitudes : List ℚ) : Bool :=
  let has_stalled :=
    if detect_stalling && constraints_satisfied then
      detectStall iteration step_magnitudes
    else false
  let is_ready := decide (iteration ≥ max_iterations) ||
    (has_converged && constraints_satisfied) || has_stalled
  decide (iteration ≥ min_iterations) && is_ready

/-! ## BdaDdeCal::SolveCurrentInterval weight fix-up
(src/steps/BdaDdeCal.cc lines 312-346) -/

/-- Embedding of the condition `result.iterations > solver_->GetMaxIterations()`
used at src/steps/BdaDdeCal.cc lines 315-316 and 365-366.  Per the comment at
lines 312-314, unconverged solutions are identified by the number of
iterations being one more than the max allowed number. -/
def UnconvergedInterval (iterations max_iterations : Nat) : Bool :=
  iterations > max_iterations

/-- Embedding of the weight fix-up applied to `result.results` in
`BdaDdeCal::SolveCurrentInterval` (src/steps/BdaDdeCal.cc lines 312-346).
`results` models `SolveResult::results`, a vector over constraints of
vectors of `Constraint::Result`, of which only the `weights` vector is
relevant here. -/
def FixupSolutionWeights (flag_unconverged flag_diverged_only : Bool)
    (iterations max_iterations : Nat)
    (results : List (List (List ℚ))) : List (List (List ℚ)) :=
  if flag_unconverged && UnconvergedInterval iterations max_iterations then
    if flag_diverged_only then
      results.map (List.map (List.map (fun w => max w 0)))
    else
      results.map (List.map (List.map (fun _ => 0)))
  else
    results.map (List.map (List.map (fun w => if w < 0 then 1 else w)))

/-- Access the weight at position (constraint i, result j, entry k) of a
`SolveResult::results` value, as an `Option`. -/
def weightAt (results : List (List (List ℚ))) (i j k : Nat) : Option ℚ :=
  ((results.get? i).bind (fun cr => cr.get? j)).bind (fun r => r.get? k)

/-! ## BdaDdeCal::DetermineChannelBlocks (src/steps/BdaDdeCal.cc 146-178) -/

/-- Embedding of the channel-block count computed at src/steps/BdaDdeCal.cc
lines 149-153: one block unless the channels-per-block setting
`settings_.n_channels` is positive, in which case
`max(info().nchan() / settings_.n_channels, 1)` blocks. -/
def NChannelBlocks (n_chan n_channels_setting : Nat) : Nat :=
  if n_channels_setting > 0 then max (n_chan / n_channels_setting) 1 else 1

/-- Band start computed at src/steps/BdaDdeCal.cc lines 157-158:
`info().chanFreqs(0).front() - info().chanWidths(0).front() / 2`. -/
def minFreq (freqs widths : List ℚ) : ℚ :=
  freqs.headD 0 - widths.headD 0 / 2

/-- Band end computed at src/steps/BdaDdeCal.cc lines 159-160:
`info().chanFreqs(0).back() + info().chanWidths(0).back() / 2`. -/
def maxFreq (freqs widths : List ℚ) : ℚ :=
  freqs.getLastD 0 + widths.getLastD 0 / 2

/-- Uniform channel width computed at src/steps/BdaDdeCal.cc line 161:
`(max_freq - min_freq) / info().nchan()`. -/
def chanWidth (n_chan : Nat) (freqs widths : List ℚ) : ℚ :=
  (maxFreq freqs widths - minFreq freqs widths) / (n_chan : ℚ)

/-- Embedding of the loop at src/steps/BdaDdeCal.cc lines 169-177, which
pushes one boundary frequency per channel block.  `remaining` counts the
loop iterations still to run, so the loop variable `ch_block` equals
`n_blocks - remaining`. -/
def ChanBlockLoop (n_chan n_blocks : Nat) (chan_width : ℚ) :
    Nat → Nat → ℚ → List ℚ
  | 0, _, _ => []
  | remaining + 1, start_index, start_freq =>
    let ch_block := n_blocks - (remaining + 1)
    let next_index := (ch_block + 1) * n_chan / n_blocks
    let block_size := next_index - start_index
    let next_freq := start_freq + (block_size : ℚ) * chan_width
    next_freq ::
      ChanBlockLoop n_chan n_blocks chan_width remaining next_index next_freq

/-- Embedding of `BdaDdeCal::DetermineChannelBlocks` (src/steps/BdaDdeCal.cc
lines 146-178).  `freqs` and `widths` model `info().chanFreqs(0)` and
`info().chanWidths(0)`, `n_chan` models `info().nchan()` and
`n_channels_setting` the `ddecal.nchannels` setting; the returned list
models `chan_block_start_freqs_`. -/
def DetermineChannelBlocks (n_chan n_channels_setting : Nat)
    (freqs widths : List ℚ) : List ℚ :=
  minFreq freqs widths ::
    ChanBlockLoop n_chan (NChannelBlocks n_chan n_channels_setting)
      (chanWidth n_chan freqs widths)
      (NChannelBlocks n_chan n_channels_setting) 0 (minFreq freqs widths)

/-- Center frequencies of a contiguous channel grid that starts at `base`
and has the given channel widths: each channel is centered half its width
past the end of the previous channel.  This expresses what a valid channel
configuration is (`info().chanFreqs(0)` consistent with
`info().chanWidths(0)`). -/
def gridFreqs (base : ℚ) : List ℚ → List ℚ
  | [] => []
  | w :: ws => (base + w / 2) :: gridFreqs (base + w) ws

/-- Boundary frequencies computed from cumulative channel widths, following
the words of the spec ("boundaries are computed from cumulative channel
width, not from an assumption of equal width"): the boundary of block `k`
sits at `min_freq` plus the summed widths of the channels before the
block's first channel. -/
def CumulativeWidthBoundaries (n_chan n_channels_setting : Nat)
    (widths : List ℚ) (min_freq : ℚ) : List ℚ :=
  let n_blocks := NChannelBlocks n_chan n_channels_setting
  (List.range (n_blocks + 1)).map
    (fun k => min_freq + (widths.take (k * n_chan / n_blocks)).sum)

/-! ## BdaDdeCal::InitializeCurrentSolutions (src/steps/BdaDdeCal.cc 360-399) -/

/-- One solution interval's solutions: per channel block the flat vector of
nAntennas x nDirections x nPol complex entries (an element of `solutions_`
in src/steps/BdaDdeCal.cc). -/
abbrev IntervalSolution := List (List Cx)

/-- Embedding of the full-Jones branch at src/steps/BdaDdeCal.cc lines
383-392: the block entries are overwritten in groups of four with the 2x2
unity matrix (1, 0, 0, 1).  The incomplete trailing groups (which cannot
occur, since a block holds 4 entries per (antenna, direction) pair) receive
the in-range writes of the loop body. -/
def UnityJonesFill : List Cx → List Cx
  | _ :: _ :: _ :: _ :: rest =>
    ((1 : ℚ), (0 : ℚ)) :: ((0 : ℚ), (0 : ℚ)) :: ((0 : ℚ), (0 : ℚ)) ::
      ((1 : ℚ), (0 : ℚ)) :: UnityJonesFill rest
  | [] => []
  | [_] => [((1 : ℚ), (0 : ℚ))]
  | [_, _] => [((1 : ℚ), (0 : ℚ)), ((0 : ℚ), (0 : ℚ))]
  | [_, _, _] => [((1 : ℚ), (0 : ℚ)), ((0 : ℚ), (0 : ℚ)), ((0 : ℚ), (0 : ℚ))]

/-- Neutral initial value of a solution interval, following the two
non-propagating branches of `BdaDdeCal::InitializeCurrentSolutions`
(src/steps/BdaDdeCal.cc lines 383-398): the unity 2x2 matrix per group of
four entries when the solver has 4 solution polarizations, and 1.0 per
entry otherwise. -/
def NeutralSolution (n_pol : Nat) (current_solution : IntervalSolution) :
    IntervalSolution :=
  if n_pol = 4 then current_solution.map UnityJonesFill
  else
    current_solution.map
      (fun block_solution =>
        List.replicate block_solution.length ((1 : ℚ), (0 : ℚ)))

/-- Embedding of `BdaDdeCal::InitializeCurrentSolutions`
(src/steps/BdaDdeCal.cc lines 360-399).  `solutions` models `solutions_`
with the freshly appended current interval at the back, `iterations` models
`iterations_` (one entry per already solved interval), `n_pol` models
`solver_->NSolutionPolarizations()` and `max_iterations` models
`solver_->GetMaxIterations()`.  Returns the new value of
`solutions_.back()`. -/
def InitializeCurrentSolutions
    (propagate_solutions propagate_converged_only : Bool)
    (max_iterations : Nat) (iterations : List Nat) (n_pol : Nat)
    (solutions : List IntervalSolution) : IntervalSolution :=
  let propagate0 := decide (solutions.length > 1) && propagate_solutions
  let propagate :=
    if propagate0 && propagate_converged_only &&
        UnconvergedInterval (iterations.getD (solutions.length - 2) 0)
          max_iterations then
      false
    else propagate0
  if propagate then solutions.getD (solutions.length - 2) []
  else NeutralSolution n_pol (solutions.getLastD [])

/-! ## BdaDdeCal constructor (src/steps/BdaDdeCal.cc 30-67) -/

/-- Errors thrown by the `BdaDdeCal` constructor. -/
inductive CalError where
  | invalid_argument (message : String)
  | runtime_error (message : String)
deriving DecidableEq

/-- Embedding of the checks in the `BdaDdeCal` constructor
(src/steps/BdaDdeCal.cc lines 49-67).  `directions` models
`settings_.directions`; `constraint_lists` models, for each element of
`solver_->ConstraintSolvers()` of the solver that `CreateBdaSolver` would
create, its `GetConstraints()` list, with the constraints themselves
opaque; the solver is only created and inspected when `only_predict` is
false. -/
def BdaDdeCalConstructor (directions : List String) (only_predict : Bool)
    (constraint_lists : List (List Unit)) : Except CalError Unit :=
  if directions.isEmpty then
    .error (.invalid_argument
      "Invalid info in input parset: direction(s) must be specified")
  else if !only_predict &&
      constraint_lists.any (fun constraints => !constraints.isEmpty) then
    .error (.runtime_error
      "BDA Solver constraints are not implemented in BdaDdeCal. Use a solver without constraints (scalar or diagonal).")
  else
    .ok ()

/-! ## BdaDdeCal::ProcessCompleteDirections (src/steps/BdaDdeCal.cc 230-273) -/

/-- What the step does with the complete front entry of the model-buffer
queue: in only-predict mode a buffer is forwarded to the next step, and
otherwise the data and model buffers are appended to the solver buffer. -/
inductive FrontAction where
  | forward (buffer : List Cx)
  | appendToSolver
deriving DecidableEq

/-- Embedding of the accumulation loop at src/steps/BdaDdeCal.cc lines
244-249: for every element index below the number of elements of direction
0's buffer, `data[j] += other_data[j]` (the buffers are asserted to have
equal element counts). -/
def AddBuffer (data other_data : List Cx) : List Cx :=
  data.zipWith (· + ·) other_data

/-- Embedding of the handling of one complete front entry of
`model_buffers_` in `BdaDdeCal::ProcessCompleteDirections`
(src/steps/BdaDdeCal.cc lines 230-261): in only-predict mode all
per-direction model buffers are summed into direction 0's buffer and that
buffer is forwarded to the next step; otherwise the front data buffer and
the model buffers go to the solver buffer. -/
def ProcessCompleteFront (only_predict : Bool)
    (direction_buffers : List (List Cx)) : FrontAction :=
  if only_predict then
    .forward
      (direction_buffers.tail.foldl AddBuffer (direction_buffers.headD []))
  else
    .appendToSolver

/-! ## BdaDdeCal::SolveCurrentInterval bookkeeping
(src/steps/BdaDdeCal.cc 275-358) -/

/-- Embedding of `SolverBase::SolveResult`
(src/ddecal/gain_solvers/SolverBase.h lines 43-47), with each
`Constraint::Result` reduced to its `weights` vector. -/
structure SolveResult where
  iterations : Nat
  constraint_iterations : Nat
  results : List (List (List ℚ))

/-- Bookkeeping state of `BdaDdeCal` across solution intervals: the members
`solutions_`, `iterations_`, `approx_iterations_` and
`constraint_solutions_`. -/
structure BdaState where
  solutions : List IntervalSolution
  iterations : List Nat
  approx_iterations : List Nat
  constraint_solutions : List (List (List (List ℚ)))

/-- Embedding of the bookkeeping in `BdaDdeCal::SolveCurrentInterval`
(src/steps/BdaDdeCal.cc lines 275-358): a fresh all-ones solution entry for
the interval is appended (lines 288-293) and initialized (line 295), the
iteration counts of the solver result are recorded (lines 300-303), the
per-entry weights receive the fix-up of lines 312-346, and the (possibly
empty) constraint solutions are appended (lines 348-356).  The solver call
itself is abstract: its result and the dimensions are parameters. -/
def SolveCurrentInterval
    (flag_unconverged flag_diverged_only : Bool)
    (propagate_solutions propagate_converged_only : Bool)
    (max_iterations n_channel_blocks block_solution_size n_pol : Nat)
    (result : SolveResult) (st : BdaState) : BdaState :=
  let solutions1 := st.solutions ++
    [List.replicate n_channel_blocks
      (List.replicate block_solution_size ((1 : ℚ), (0 : ℚ)))]
  let init := InitializeCurrentSolutions propagate_solutions
    propagate_converged_only max_iterations st.iterations n_pol solutions1
  let fixed := FixupSolutionWeights flag_unconverged flag_diverged_only
    result.iterations max_iterations result.results
  { solutions := solutions1.dropLast ++ [init]
    iterations := st.iterations ++ [result.iterations]
    approx_iterations :=
      st.approx_iterations ++ [result.constraint_iterations]
    constraint_solutions := st.constraint_solutions ++
      [if fixed.any (fun constraint_results => !constraint_results.isEmpty)
       then fixed else []] }

lemma NChannelBlocks_pos (n_chan n_channels_setting : Nat) :
    0 < NChannelBlocks n_chan n_channels_setting := by
  unfold NChannelBlocks
  split
  · exact lt_of_lt_of_le Nat.one_pos (le_max_right _ _)
  · exact Nat.one_pos

lemma NChannelBlocks_le (n_chan n_channels_setting : Nat)
    (h : 1 ≤ n_chan) : NChannelBlocks n_chan n_channels_setting ≤ n_chan := by
  unfold NChannelBlocks
  split
  · exact max_le (Nat.div_le_self _ _) h
  · exact h

lemma chanBlockLoop_length (n_chan n_blocks : Nat) (cw : ℚ) :
    ∀ (remaining start_index : Nat) (start_freq : ℚ),
      (ChanBlockLoop n_chan n_blocks cw remaining start_index
        start_freq).length = remaining := by
  intro remaining
  induction remaining with
  | zero => intro start_index start_freq; rfl
  | succ r ih =>
    intro start_index start_freq
    unfold ChanBlockLoop
    simp [ih]

lemma nat_mul_div_strict_mono (n B i j : Nat) (hB : 0 < B) (hBn : B ≤ n)
    (hij : i < j) : i * n / B < j * n / B := by
  have h1 : i * n / B + 1 = (i * n + B) / B := (Nat.add_div_right _ hB).symm
  have h2 : i * n + B ≤ j * n := by
    calc i * n + B ≤ i * n + n := by omega
    _ = (i + 1) * n := by ring
    _ ≤ j * n := Nat.mul_le_mul_right n hij
  have h3 : (i * n + B) / B ≤ j * n / B := Nat.div_le_div_right h2
  omega

lemma chanBlockLoop_closed (n_chan n_blocks : Nat) (cw min_freq : ℚ) :
    ∀ (remaining start_index : Nat) (start_freq : ℚ),
      remaining ≤ n_blocks →
      start_index = (n_blocks - remaining) * n_chan / n_blocks →
      start_freq = min_freq + (start_index : ℚ) * cw →
      ChanBlockLoop n_chan n_blocks cw remaining start_index start_freq =
        (List.range remaining).map
          (fun j =>
            min_freq +
              (((n_blocks - remaining + j + 1) * n_chan / n_blocks : ℕ) : ℚ)
                * cw) := by
  intro remaining
  induction remaining with
  | zero => intro _ _ _ _ _; rfl
  | succ r ih =>
    intro start_index start_freq hr hidx hfreq
    have hblk : n_blocks - (r + 1) + 1 = n_blocks - r := by omega
    have hmono : start_index ≤ (n_blocks - (r + 1) + 1) * n_chan / n_blocks := by
      rw [hidx]
      exact Nat.div_le_div_right (Nat.mul_le_mul_right n_chan (by omega))
    have hcast :
        (((n_blocks - (r + 1) + 1) * n_chan / n_blocks - start_index : ℕ)
          : ℚ) =
        (((n_blocks - (r + 1) + 1) * n_chan / n_blocks : ℕ) : ℚ)
          - (start_index : ℚ) :=
      Nat.cast_sub hmono
    have hnextfreq :
        start_freq +
            (((n_blocks - (r + 1) + 1) * n_chan / n_blocks - start_index : ℕ)
              : ℚ) * cw =
          min_freq +
            (((n_blocks - (r + 1) + 1) * n_chan / n_blocks : ℕ) : ℚ) * cw := by
      rw [hcast, hfreq]
      ring
    show _ :: _ = _
    rw [List.range_succ_eq_map, List.map_cons, List.map_map]
    refine List.cons_eq_cons.mpr ⟨?_, ?_⟩
    · rw [hnextfreq]
    · rw [ih ((n_blocks - (r + 1) + 1) * n_chan / n_blocks) _ (by omega)
        (by rw [hblk]) hnextfreq]
      apply List.map_congr_left
      intro j _
      have harg : n_blocks - (r + 1) + (j + 1) + 1 = n_blocks - r + j + 1 := by
        omega
      simp [Function.comp, Nat.succ_eq_add_one, harg]

/-! ## Claims C1, C2, C6 -/

/-- C1: the Iteration Engine stops iff
`iteration_count >= min_iterations` and (`iteration_count >= max_iterations`
or (`is_converged` and `constraints_converged`) or stalling was detected),
where stalling can only be detected when stall detection is enabled and the
constraints are satisfied; moreover the stall test is never evaluated
otherwise: the result does not depend on the stall predicate when stall
detection is disabled or the constraints are unsatisfied. -/
theorem C1_stopping_criterion (detect_stalling : Bool)
    (min_iterations max_iterations : Nat)
    (detectStall : Nat → List ℚ → Bool)
    (iteration : Nat) (has_converged constraints_satisfied : Bool)
    (step_magnitudes : List ℚ) :
    (ReachedStoppingCriterion detect_stalling min_iterations max_iterations
        detectStall iteration has_converged constraints_satisfied
        step_magnitudes = true ↔
      (iteration ≥ min_iterations ∧
        (iteration ≥ max_iterations ∨
          (has_converged = true ∧ constraints_satisfied = true) ∨
          (detect_stalling = true ∧ constraints_satisfied = true ∧
            detectStall iteration step_magnitudes = true)))) ∧
    (∀ f g : Nat → List ℚ → Bool,
      ¬(detect_stalling = true ∧ constraints_satisfied = true) →
      ReachedStoppingCriterion detect_stalling min_iterations max_iterations
          f iteration has_converged constraints_satisfied step_magnitudes =
        ReachedStoppingCriterion detect_stalling min_iterations max_iterations
          g iteration has_converged constraints_satisfied step_magnitudes) := by
  constructor
  · unfold ReachedStoppingCriterion
    cases detect_stalling <;> cases constraints_satisfied <;>
      cases has_converged <;>
      simp [Bool.and_eq_true, Bool.or_eq_true, decide_eq_true_eq]
  · intro f g h
    unfold ReachedStoppingCriterion
    cases detect_stalling <;> cases constraints_satisfied <;> simp at h ⊢

/-- Witness for C1 at a concrete state: with stall detection enabled,
constraints satisfied and a stall predicate that reports a stall, iteration
5 of a solver with min_iterations 2 and max_iterations 10 stops. -/
theorem C1_stopping_criterion_witness :
    ReachedStoppingCriterion true 2 10 (fun _ _ => true) 5 false true [] =
      true :=
  (C1_stopping_criterion true 2 10 (fun _ _ => true) 5 false true []).1.mpr
    (by exact ⟨by decide, Or.inr (Or.inr ⟨rfl, rfl, rfl⟩)⟩)

/-- C2: the weight fix-up in `SolveCurrentInterval` acts entrywise: when the
iteration count exceeded `max_iterations` and flagging of unconverged
solutions is enabled, with diverged-only flagging the negative weights
become 0 and the others are unchanged, and without diverged-only flagging
every weight becomes 0; otherwise negative weights become 1 and the others
are unchanged.  Entries are neither created nor dropped. -/
theorem C2_weight_flagging (flag_unconverged flag_diverged_only : Bool)
    (iterations max_iterations : Nat) (results : List (List (List ℚ)))
    (i j k : Nat) :
    (∀ w : ℚ, weightAt results i j k = some w →
      weightAt (FixupSolutionWeights flag_unconverged flag_diverged_only
          iterations max_iterations results) i j k =
        some (if flag_unconverged = true ∧ iterations > max_iterations then
            (if flag_diverged_only = true then (if w < 0 then 0 else w)
             else 0)
          else (if w < 0 then 1 else w))) ∧
    (weightAt results i j k = none →
      weightAt (FixupSolutionWeights flag_unconverged flag_diverged_only
          iterations max_iterations results) i j k = none) := by
  have hmap : ∀ (f : ℚ → ℚ),
      weightAt (results.map (List.map (List.map f))) i j k =
        (weightAt results i j k).map f := by
    have hget : ∀ (α β : Type) (g : α → β) (l : List α) (n : Nat),
        (l.map g).get? n = (l.get? n).map g := by
      intro α β g l n
      simp [List.get?_eq_getElem?, List.getElem?_map]
    intro f
    unfold weightAt
    rw [hget]
    rcases results.get? i with _ | cr
    · rfl
    · simp only [Option.map_some', Option.some_bind]
      rw [hget]
      rcases cr.get? j with _ | r
      · rfl
      · simp only [Option.map_some', Option.some_bind]
        rw [hget]
  unfold FixupSolutionWeights UnconvergedInterval
  constructor
  · intro w hw
    by_cases hcond : flag_unconverged = true ∧ iterations > max_iterations
    · have hb : (flag_unconverged && decide (iterations > max_iterations))
          = true := by
        simp [hcond.1, hcond.2]
      rw [hb]
      by_cases hdiv : flag_diverged_only = true
      · simp only [hdiv, if_true, hmap, hw, Option.map_some, hcond, if_true]
        rcases lt_or_le w 0 with h | h
        · simp [h, max_eq_right h.le]
        · simp [not_lt.mpr h, max_eq_left h]
      · have : flag_diverged_only = false := by
          cases flag_diverged_only <;> simp_all
        simp [this, hmap, hw, hcond]
    · have hb : (flag_unconverged && decide (iterations > max_iterations))
          = false := by
        cases flag_unconverged <;> simp_all
      rw [hb]
      simp only [Bool.false_eq_true, if_false, hmap, hw, Option.map_some]
      simp [hcond]
  · intro hw
    by_cases hb : (flag_unconverged && decide (iterations > max_iterations))
        = true
    · rw [hb]
      by_cases hdiv : flag_diverged_only = true
      · simp [hdiv, hmap, hw]
      · have : flag_diverged_only = false := by
          cases flag_diverged_only <;> simp_all
        simp [this, hmap, hw]
    · have : (flag_unconverged && decide (iterations > max_iterations))
          = false := by
        cases h : (flag_unconverged && decide (iterations > max_iterations)) <;>
          simp_all
      rw [this]
      simp [hmap, hw]

/-- Witness for C2 at a concrete result: with flagging enabled,
diverged-only set and 6 iterations against a maximum of 5, the negative
weight -1 at position (0,0,0) becomes 0. -/
theorem C2_weight_flagging_witness :
    weightAt [[[(-1 : ℚ)]]] 0 0 0 = some (-1) ∧
    weightAt (FixupSolutionWeights true true 6 5 [[[(-1 : ℚ)]]]) 0 0 0 =
      some 0 := by
  refine ⟨by decide, ?_⟩
  have h := (C2_weight_flagging true true 6 5 [[[(-1 : ℚ)]]] 0 0 0).1 (-1)
    (by decide)
  simpa using h

/-- C6 counterexample: the code identifies an unconverged interval by
`iterations > max_iterations` (src/steps/BdaDdeCal.cc lines 312-316): with
`max_iterations = 50`, a result carrying `iterations = 50` (the value the
claim assigns to a non-converged solve) is classified as converged, while
`iterations = 51` is the unconverged marker, and 51 is not 50. -/
theorem C6_counterexample :
    UnconvergedInterval 50 50 = false ∧ UnconvergedInterval 51 50 = true ∧
      (51 : Nat) ≠ 50 := by
  refine ⟨by decide, by decide, by decide⟩

/-- C6 amended: a non-converged solve is surfaced as a SolveResult whose
iteration count is `max_iterations + 1`, i.e. the count exceeds
`max_iterations`; for any iteration count in the range the solver can
report (at most one more than the maximum), the code classifies the
interval as unconverged exactly when the count equals
`max_iterations + 1`. -/
theorem C6_nonconvergence_marker (iterations max_iterations : Nat)
    (h : iterations ≤ max_iterations + 1) :
    UnconvergedInterval iterations max_iterations = true ↔
      iterations = max_iterations + 1 := by
  unfold UnconvergedInterval
  simp only [decide_eq_true_eq]
  omega

/-- Witness for C6 at a concrete count: 51 iterations with a maximum of 50
is classified as unconverged. -/
theorem C6_nonconvergence_marker_witness :
    UnconvergedInterval 51 50 = true :=
  (C6_nonconvergence_marker 51 50 (by decide)).mpr (by decide)

/-! ## Claims C4, C5 -/

lemma minFreq_grid (base w : ℚ) (ws : List ℚ) :
    minFreq (gridFreqs base (w :: ws)) (w :: ws) = base := by
  show base + w / 2 - w / 2 = base
  ring

lemma gridFreqs_last_sum :
    ∀ (ws : List ℚ) (base w d e : ℚ),
      (gridFreqs base (w :: ws)).getLastD d + (w :: ws).getLastD e / 2 =
        base + (w :: ws).sum := by
  intro ws
  induction ws with
  | nil =>
    intro base w d e
    show base + w / 2 + w / 2 = base + (w + 0)
    ring
  | cons w2 ws2 ih =>
    intro base w d e
    have h1 : gridFreqs base (w :: w2 :: ws2) =
        (base + w / 2) :: gridFreqs (base + w) (w2 :: ws2) := rfl
    rw [h1, List.getLastD_cons, List.getLastD_cons,
      ih (base + w) w2 (base + w / 2) w]
    simp only [List.sum_cons]
    ring

lemma maxFreq_grid (base w : ℚ) (ws : List ℚ) :
    maxFreq (gridFreqs base (w :: ws)) (w :: ws) = base + (w :: ws).sum :=
  gridFreqs_last_sum ws base w 0 0

lemma determineChannelBlocks_closed (n_chan n_channels_setting : Nat)
    (freqs widths : List ℚ) :
    DetermineChannelBlocks n_chan n_channels_setting freqs widths =
      (List.range (NChannelBlocks n_chan n_channels_setting + 1)).map
        (fun k =>
          minFreq freqs widths +
            ((k * n_chan / NChannelBlocks n_chan n_channels_setting : ℕ) : ℚ)
              * chanWidth n_chan freqs widths) := by
  unfold DetermineChannelBlocks
  rw [chanBlockLoop_closed n_chan (NChannelBlocks n_chan n_channels_setting)
    (chanWidth n_chan freqs widths) (minFreq freqs widths)
    (NChannelBlocks n_chan n_channels_setting) 0 (minFreq freqs widths)
    le_rfl (by simp) (by simp)]
  rw [List.range_succ_eq_map, List.map_cons, List.map_map]
  refine List.cons_eq_cons.mpr ⟨by simp, ?_⟩
  apply List.map_congr_left
  intro j _
  have harg : NChannelBlocks n_chan n_channels_setting -
      NChannelBlocks n_chan n_channels_setting + j + 1 = j + 1 := by omega
  simp [Function.comp, Nat.succ_eq_add_one, harg]

/-- C5: for every channel count and channels-per-block setting, the
partitioner produces exactly `max 1 (n_chan / n_channels_setting)` channel
blocks (integer division; in particular one block when the setting is unset,
i.e. zero, or exceeds the channel count), and the boundary frequency array
has one more entry than there are blocks. -/
theorem C5_block_count (n_chan n_channels_setting : Nat)
    (freqs widths : List ℚ) :
    NChannelBlocks n_chan n_channels_setting =
      max 1 (n_chan / n_channels_setting) ∧
    (DetermineChannelBlocks n_chan n_channels_setting freqs widths).length =
      NChannelBlocks n_chan n_channels_setting + 1 := by
  constructor
  · unfold NChannelBlocks
    split
    · exact max_comm _ _
    · next h =>
      have h0 : n_channels_setting = 0 := by omega
      simp [h0]
  · show _ + 1 = _
    rw [chanBlockLoop_length]

/-- C4 counterexample: with two channels of widths 1 and 3 (band 0 to 4)
and one channel per block, the code computes the block boundaries from the
uniform average channel width, giving boundaries 0, 2, 4, while boundaries
from cumulative channel widths would be 0, 1, 4; the two disagree, so the
boundaries are not computed from cumulative channel widths. -/
theorem C4_counterexample :
    DetermineChannelBlocks 2 1 (gridFreqs 0 [1, 3]) [1, 3] = [0, 2, 4] ∧
    CumulativeWidthBoundaries 2 1 [1, 3] 0 = [0, 1, 4] ∧
    DetermineChannelBlocks 2 1 (gridFreqs 0 [1, 3]) [1, 3] ≠
      CumulativeWidthBoundaries 2 1 [1, 3] 0 := by
  have h1 : DetermineChannelBlocks 2 1 (gridFreqs 0 [1, 3]) [1, 3] =
      [0, 2, 4] := by
    norm_num [DetermineChannelBlocks, ChanBlockLoop, NChannelBlocks, minFreq,
      maxFreq, chanWidth, gridFreqs]
  have h2 : CumulativeWidthBoundaries 2 1 [1, 3] 0 = [0, 1, 4] := by
    norm_num [CumulativeWidthBoundaries, NChannelBlocks, List.range_succ]
  refine ⟨h1, h2, ?_⟩
  rw [h1, h2]
  norm_num

/-- C4 amended: for every valid channel configuration (a contiguous grid of
at least one channel with positive widths) and every channels-per-block
setting, the boundary frequency array is strictly increasing, starts at
`min_freq` and ends at `max_freq`, but its boundaries lie at multiples of
the uniform average channel width `(max_freq - min_freq) / n_chan` above
`min_freq` (an equal-width spacing), not at cumulative channel widths. -/
theorem C4_boundary_properties (base : ℚ) (widths : List ℚ)
    (n_chan n_channels_setting : Nat)
    (hlen : widths.length = n_chan) (hchan : 1 ≤ n_chan)
    (hpos : ∀ w ∈ widths, 0 < w) :
    List.Pairwise (· < ·)
      (DetermineChannelBlocks n_chan n_channels_setting
        (gridFreqs base widths) widths) ∧
    (DetermineChannelBlocks n_chan n_channels_setting
        (gridFreqs base widths) widths).head? =
      some (minFreq (gridFreqs base widths) widths) ∧
    (DetermineChannelBlocks n_chan n_channels_setting
        (gridFreqs base widths) widths).getLast? =
      some (maxFreq (gridFreqs base widths) widths) ∧
    DetermineChannelBlocks n_chan n_channels_setting (gridFreqs base widths)
        widths =
      (List.range (NChannelBlocks n_chan n_channels_setting + 1)).map
        (fun k =>
          minFreq (gridFreqs base widths) widths +
            ((k * n_chan / NChannelBlocks n_chan n_channels_setting : ℕ) : ℚ)
              * chanWidth n_chan (gridFreqs base widths) widths) := by
  obtain ⟨w, ws, rfl⟩ : ∃ w ws, widths = w :: ws := by
    cases widths with
    | nil => simp at hlen; omega
    | cons w ws => exact ⟨w, ws, rfl⟩
  have hBpos := NChannelBlocks_pos n_chan n_channels_setting
  have hBle := NChannelBlocks_le n_chan n_channels_setting hchan
  have hclosed := determineChannelBlocks_closed n_chan n_channels_setting
    (gridFreqs base (w :: ws)) (w :: ws)
  have hnne : (n_chan : ℚ) ≠ 0 := by
    exact_mod_cast Nat.pos_iff_ne_zero.mp (by omega)
  have hcw : 0 < chanWidth n_chan (gridFreqs base (w :: ws)) (w :: ws) := by
    unfold chanWidth
    rw [maxFreq_grid, minFreq_grid]
    have hsum : 0 < (w :: ws).sum :=
      List.sum_pos _ hpos (List.cons_ne_nil w ws)
    have : base + (w :: ws).sum - base = (w :: ws).sum := by ring
    rw [this]
    positivity
  refine ⟨?_, ?_, ?_, hclosed⟩
  · rw [hclosed]
    rw [List.pairwise_iff_getElem]
    intro i j hi hj hij
    simp only [List.getElem_map, List.getElem_range,
      List.length_map, List.length_range] at hi hj ⊢
    have hdiv : i * n_chan / NChannelBlocks n_chan n_channels_setting <
        j * n_chan / NChannelBlocks n_chan n_channels_setting :=
      nat_mul_div_strict_mono n_chan _ i j hBpos hBle hij
    have hcast :
        ((i * n_chan / NChannelBlocks n_chan n_channels_setting : ℕ) : ℚ) <
        ((j * n_chan / NChannelBlocks n_chan n_channels_setting : ℕ) : ℚ) :=
      by exact_mod_cast hdiv
    have := mul_lt_mul_of_pos_right hcast hcw
    linarith
  · show some _ = some _
    rfl
  · rw [hclosed, List.getLast?_eq_getElem?]
    have hlength :
        ((List.range (NChannelBlocks n_chan n_channels_setting + 1)).map
          (fun k =>
            minFreq (gridFreqs base (w :: ws)) (w :: ws) +
              ((k * n_chan / NChannelBlocks n_chan n_channels_setting : ℕ)
                : ℚ) *
                chanWidth n_chan (gridFreqs base (w :: ws))
                  (w :: ws))).length =
          NChannelBlocks n_chan n_channels_setting + 1 := by
      simp
    rw [hlength]
    simp only [Nat.add_sub_cancel, List.getElem?_map, List.getElem?_range,
      Nat.lt_succ_self, if_pos]
    rw [Option.map_some', Nat.mul_div_cancel_left n_chan hBpos]
    congr 1
    unfold chanWidth
    field_simp

/-- Witness for C4 at the configuration of the counterexample: the code's
boundaries for two channels of widths 1 and 3 with one channel per block
are strictly increasing. -/
theorem C4_boundary_properties_witness :
    List.Pairwise (· < ·)
      (DetermineChannelBlocks 2 1 (gridFreqs 0 [1, 3]) [1, 3]) :=
  (C4_boundary_properties 0 [1, 3] 2 1 (by decide) (by decide)
    (by norm_num)).1

/-! ## Claim C3 -/

lemma unityJonesFill_replicate :
    ∀ (m : Nat) (block : List Cx), block.length = 4 * m →
      UnityJonesFill block =
        (List.replicate m
          [((1 : ℚ), (0 : ℚ)), ((0 : ℚ), (0 : ℚ)), ((0 : ℚ), (0 : ℚ)),
            ((1 : ℚ), (0 : ℚ))]).flatten := by
  intro m
  induction m with
  | zero =>
    intro block h
    have hb : block = [] := List.length_eq_zero.mp (by omega)
    subst hb
    rfl
  | succ k ih =>
    intro block h
    cases block with
    | nil => simp only [List.length_nil] at h; omega
    | cons a t1 =>
      cases t1 with
      | nil => simp only [List.length_cons, List.length_nil] at h; omega
      | cons b t2 =>
        cases t2 with
        | nil => simp only [List.length_cons, List.length_nil] at h; omega
        | cons c t3 =>
          cases t3 with
          | nil => simp only [List.length_cons, List.length_nil] at h; omega
          | cons d rest =>
            have hr : rest.length = 4 * k := by
              simp only [List.length_cons] at h; omega
            show ((1 : ℚ), (0 : ℚ)) :: ((0 : ℚ), (0 : ℚ)) ::
                ((0 : ℚ), (0 : ℚ)) :: ((1 : ℚ), (0 : ℚ)) ::
                UnityJonesFill rest = _
            rw [List.replicate_succ, List.flatten_cons, ih rest hr]
            rfl

/-- C3: an interval after the first with propagation enabled starts from
the previous interval's final solution, unless converged-only propagation
is configured and the previous interval exceeded the maximum iteration
count, in which case (as for the first interval or with propagation
disabled) it starts from the neutral value: the 2x2 unity matrix per group
of four entries for the 4-polarization parameterization and 1.0 per entry
otherwise. -/
theorem C3_solution_propagation
    (propagate_solutions propagate_converged_only : Bool)
    (max_iterations : Nat) (iterations : List Nat) (n_pol : Nat)
    (solutions : List IntervalSolution) :
    (2 ≤ solutions.length → propagate_solutions = true →
      (propagate_converged_only = false ∨
        iterations.getD (solutions.length - 2) 0 ≤ max_iterations) →
      InitializeCurrentSolutions propagate_solutions propagate_converged_only
          max_iterations iterations n_pol solutions =
        solutions.getD (solutions.length - 2) []) ∧
    (2 ≤ solutions.length → propagate_solutions = true →
      propagate_converged_only = true →
      max_iterations < iterations.getD (solutions.length - 2) 0 →
      InitializeCurrentSolutions propagate_solutions propagate_converged_only
          max_iterations iterations n_pol solutions =
        NeutralSolution n_pol (solutions.getLastD [])) ∧
    ((solutions.length ≤ 1 ∨ propagate_solutions = false) →
      InitializeCurrentSolutions propagate_solutions propagate_converged_only
          max_iterations iterations n_pol solutions =
        NeutralSolution n_pol (solutions.getLastD [])) ∧
    (∀ (block : List Cx) (m : Nat), block.length = 4 * m →
      UnityJonesFill block =
        (List.replicate m
          [((1 : ℚ), (0 : ℚ)), ((0 : ℚ), (0 : ℚ)), ((0 : ℚ), (0 : ℚ)),
            ((1 : ℚ), (0 : ℚ))]).flatten) ∧
    (n_pol ≠ 4 →
      NeutralSolution n_pol (solutions.getLastD []) =
        (solutions.getLastD []).map
          (fun block_solution =>
            List.replicate block_solution.length ((1 : ℚ), (0 : ℚ)))) := by
  refine ⟨?_, ?_, ?_, ?_, ?_⟩
  · intro hlen hp hco
    have h1 : decide (solutions.length > 1) = true := by
      simp only [decide_eq_true_eq]; omega
    rcases hco with hpc | hile
    · simp [InitializeCurrentSolutions, h1, hp, hpc]
    · have h2 : UnconvergedInterval
          (iterations.getD (solutions.length - 2) 0) max_iterations =
            false := by
        simp only [UnconvergedInterval, decide_eq_false_iff_not, not_lt]
        omega
      rw [List.getD_eq_getElem?_getD] at h2
      simp [InitializeCurrentSolutions, h1, hp, h2]
  · intro hlen hp hpc hit
    have h1 : decide (solutions.length > 1) = true := by
      simp only [decide_eq_true_eq]; omega
    have h2 : UnconvergedInterval
        (iterations.getD (solutions.length - 2) 0) max_iterations = true := by
      simp only [UnconvergedInterval, decide_eq_true_eq]
      omega
    rw [List.getD_eq_getElem?_getD] at h2
    simp [InitializeCurrentSolutions, h1, hp, hpc, h2]
  · intro hor
    rcases hor with hlen | hp
    · have h1 : decide (solutions.length > 1) = false := by
        simp only [decide_eq_false_iff_not, not_lt]; omega
      simp [InitializeCurrentSolutions, h1]
    · simp [InitializeCurrentSolutions, hp]
  · exact fun block m h => unityJonesFill_replicate m block h
  · intro h4
    simp [NeutralSolution, h4]

/-- Witness for C3 at a concrete pair of intervals: with propagation
enabled, converged-only propagation disabled and a previous interval that
took 3 iterations, the second interval starts from the previous interval's
final solution. -/
theorem C3_solution_propagation_witness :
    InitializeCurrentSolutions true false 50 [3] 2
        [[[((5 : ℚ), (0 : ℚ))]], [[((9 : ℚ), (0 : ℚ))]]] =
      [[((5 : ℚ), (0 : ℚ))]] :=
  (C3_solution_propagation true false 50 [3] 2
    [[[((5 : ℚ), (0 : ℚ))]], [[((9 : ℚ), (0 : ℚ))]]]).1
    (by decide) rfl (Or.inl rfl)

/-! ## Claim C8 -/

/-- C8: the constructor fails fast: with an empty directions list it throws
an invalid-argument error; with a non-empty directions list and solving
enabled it throws a runtime error exactly when the created solver carries
any constraint; and in only-predict mode (or with no constraints) it
succeeds. -/
theorem C8_constructor_checks (directions : List String)
    (only_predict : Bool) (constraint_lists : List (List Unit)) :
    (directions = [] →
      BdaDdeCalConstructor directions only_predict constraint_lists =
        .error (.invalid_argument
          "Invalid info in input parset: direction(s) must be specified")) ∧
    (directions ≠ [] → only_predict = false →
      ((∃ constraints ∈ constraint_lists, constraints ≠ []) ↔
        BdaDdeCalConstructor directions only_predict constraint_lists =
          .error (.runtime_error
            "BDA Solver constraints are not implemented in BdaDdeCal. Use a solver without constraints (scalar or diagonal)."))) ∧
    (directions ≠ [] → only_predict = true →
      BdaDdeCalConstructor directions only_predict constraint_lists =
        .ok ()) := by
  refine ⟨?_, ?_, ?_⟩
  · intro h
    subst h
    rfl
  · intro hne hop
    subst hop
    have hempty : directions.isEmpty = false := by
      simpa [List.isEmpty_iff] using hne
    by_cases hany :
        constraint_lists.any (fun constraints => !constraints.isEmpty) = true
    · constructor
      · intro _
        simp [BdaDdeCalConstructor, hempty, hany]
      · intro _
        rcases List.any_eq_true.mp hany with ⟨c, hc, hcne⟩
        exact ⟨c, hc, by simpa [List.isEmpty_iff] using hcne⟩
    · have hany2 :
          constraint_lists.any (fun constraints => !constraints.isEmpty) =
            false := by
        cases h : constraint_lists.any (fun constraints => !constraints.isEmpty)
        · rfl
        · exact absurd h hany
      constructor
      · intro hex
        exfalso
        rcases hex with ⟨c, hc, hcne⟩
        have : constraint_lists.any
            (fun constraints => !constraints.isEmpty) = true :=
          List.any_eq_true.mpr ⟨c, hc, by simpa [List.isEmpty_iff] using hcne⟩
        rw [this] at hany2
        exact Bool.noConfusion hany2
      · intro hres
        exfalso
        have : BdaDdeCalConstructor directions false constraint_lists =
            .ok () := by
          simp [BdaDdeCalConstructor, hempty, hany2]
        rw [this] at hres
        exact Except.noConfusion hres
  · intro hne hop
    subst hop
    have hempty : directions.isEmpty = false := by
      simpa [List.isEmpty_iff] using hne
    simp [BdaDdeCalConstructor, hempty]

/-- Witness for C8 at a concrete configuration: one direction, solving
enabled, and a solver with a single constraint solver carrying one
constraint is rejected with the runtime error. -/
theorem C8_constructor_checks_witness :
    BdaDdeCalConstructor ["center"] false [[()]] =
      .error (.runtime_error
        "BDA Solver constraints are not implemented in BdaDdeCal. Use a solver without constraints (scalar or diagonal).") :=
  ((C8_constructor_checks ["center"] false [[()]]).2.1 (by decide) rfl).mp
    ⟨[()], by decide, by decide⟩

/-! ## Claim C9 -/

lemma addBuffer_getD : ∀ (xs ys : List Cx), xs.length = ys.length →
    ∀ j, (AddBuffer xs ys).getD j 0 = xs.getD j 0 + ys.getD j 0 := by
  intro xs
  induction xs with
  | nil =>
    intro ys h j
    cases ys with
    | nil => simp [AddBuffer]
    | cons y t => simp at h
  | cons x t ih =>
    intro ys h j
    cases ys with
    | nil => simp at h
    | cons y t2 =>
      cases j with
      | zero => simp [AddBuffer]
      | succ m =>
        have hrec := ih t2 (by simpa using h) m
        simpa [AddBuffer] using hrec

lemma foldl_addBuffer (n : Nat) :
    ∀ (l : List (List Cx)) (acc : List Cx), acc.length = n →
      (∀ b ∈ l, b.length = n) →
      (l.foldl AddBuffer acc).length = n ∧
      ∀ j, (l.foldl AddBuffer acc).getD j 0 =
        acc.getD j 0 + (l.map (fun b => b.getD j 0)).sum := by
  intro l
  induction l with
  | nil =>
    intro acc hacc _
    exact ⟨hacc, by simp⟩
  | cons b t ih =>
    intro acc hacc hl
    have hb : b.length = n := hl b (by simp)
    have habl : (AddBuffer acc b).length = n := by
      simp [AddBuffer, List.length_zipWith, hacc, hb]
    have ht : ∀ x ∈ t, x.length = n := fun x hx => hl x (by simp [hx])
    obtain ⟨hlen, hsum⟩ := ih (AddBuffer acc b) habl ht
    refine ⟨by simpa using hlen, ?_⟩
    intro j
    show ((t.foldl AddBuffer (AddBuffer acc b)).getD j 0) = _
    rw [hsum j, addBuffer_getD acc b (by rw [hacc, hb]) j]
    simp only [List.map_cons, List.sum_cons]
    rw [add_assoc]

/-- C9: in only-predict mode, a complete set of per-direction model buffers
of equal element counts is forwarded to the next step (not appended to the
solver buffer) as the element-wise complex sum over all directions,
accumulated into direction 0's buffer, whose element count it keeps. -/
theorem C9_only_predict_sum (direction_buffers : List (List Cx)) (n : Nat)
    (hne : direction_buffers ≠ [])
    (hlen : ∀ buffer ∈ direction_buffers, buffer.length = n) :
    ∃ s, ProcessCompleteFront true direction_buffers =
        FrontAction.forward s ∧
      s.length = n ∧
      ∀ j, s.getD j 0 =
        (direction_buffers.map (fun buffer => buffer.getD j 0)).sum := by
  cases direction_buffers with
  | nil => exact absurd rfl hne
  | cons d t =>
    have hd : d.length = n := hlen d (by simp)
    have ht : ∀ b ∈ t, b.length = n := fun b hb => hlen b (by simp [hb])
    obtain ⟨hl, hs⟩ := foldl_addBuffer n t d hd ht
    refine ⟨t.foldl AddBuffer d, rfl, hl, ?_⟩
    intro j
    rw [hs j]
    simp only [List.map_cons, List.sum_cons]

/-- Witness for C9 at two concrete one-element buffers: the forwarded
buffer is their element-wise sum. -/
theorem C9_only_predict_sum_witness :
    ∃ s, ProcessCompleteFront true
        [[((1 : ℚ), (2 : ℚ))], [((3 : ℚ), (4 : ℚ))]] =
        FrontAction.forward s ∧
      s.length = 1 ∧
      ∀ j, s.getD j 0 =
        ([[((1 : ℚ), (2 : ℚ))], [((3 : ℚ), (4 : ℚ))]].map
          (fun buffer => buffer.getD j 0)).sum :=
  C9_only_predict_sum [[((1 : ℚ), (2 : ℚ))], [((3 : ℚ), (4 : ℚ))]] 1
    (by decide) (by decide)

/-! ## Claim C10 -/

lemma fixup_preserves_empty (flag_unconverged flag_diverged_only : Bool)
    (iterations max_iterations : Nat) (results : List (List (List ℚ)))
    (h : ∀ cr ∈ results, cr = []) :
    ∀ cr ∈ FixupSolutionWeights flag_unconverged flag_diverged_only
        iterations max_iterations results, cr = [] := by
  intro cr hcr
  have hshape : ∃ f : List ℚ → List ℚ, cr ∈ results.map (List.map f) := by
    unfold FixupSolutionWeights at hcr
    split at hcr
    · split at hcr
      · exact ⟨_, hcr⟩
      · exact ⟨_, hcr⟩
    · exact ⟨_, hcr⟩
  obtain ⟨f, hf⟩ := hshape
  rcases List.mem_map.mp hf with ⟨cr0, hcr0, rfl⟩
  rw [h cr0 hcr0]
  rfl

/-- C10: after a `SolveCurrentInterval` call on a state whose bookkeeping
vectors are in lockstep, `solutions_`, `iterations_`, `approx_iterations_`
and `constraint_solutions_` each gained exactly one entry and have equal
lengths again, and when every constraint returned an empty result list the
new constraint-solution entry is the empty list (an entry is still
added). -/
theorem C10_interval_bookkeeping
    (flag_unconverged flag_diverged_only : Bool)
    (propagate_solutions propagate_converged_only : Bool)
    (max_iterations n_channel_blocks block_solution_size n_pol : Nat)
    (result : SolveResult) (st : BdaState)
    (h1 : st.iterations.length = st.solutions.length)
    (h2 : st.approx_iterations.length = st.solutions.length)
    (h3 : st.constraint_solutions.length = st.solutions.length) :
    (SolveCurrentInterval flag_unconverged flag_diverged_only
        propagate_solutions propagate_converged_only max_iterations
        n_channel_blocks block_solution_size n_pol result st).solutions.length
        = st.solutions.length + 1 ∧
    (SolveCurrentInterval flag_unconverged flag_diverged_only
        propagate_solutions propagate_converged_only max_iterations
        n_channel_blocks block_solution_size n_pol result
        st).iterations.length = st.solutions.length + 1 ∧
    (SolveCurrentInterval flag_unconverged flag_diverged_only
        propagate_solutions propagate_converged_only max_iterations
        n_channel_blocks block_solution_size n_pol result
        st).approx_iterations.length = st.solutions.length + 1 ∧
    (SolveCurrentInterval flag_unconverged flag_diverged_only
        propagate_solutions propagate_converged_only max_iterations
        n_channel_blocks block_solution_size n_pol result
        st).constraint_solutions.length = st.solutions.length + 1 ∧
    ((∀ cr ∈ result.results, cr = []) →
      (SolveCurrentInterval flag_unconverged flag_diverged_only
          propagate_solutions propagate_converged_only max_iterations
          n_channel_blocks block_solution_size n_pol result
          st).constraint_solutions.getLast? = some []) := by
  refine ⟨?_, ?_, ?_, ?_, ?_⟩
  · simp [SolveCurrentInterval, List.length_dropLast]
  · simp [SolveCurrentInterval, h1]
  · simp [SolveCurrentInterval, h2]
  · simp [SolveCurrentInterval, h3]
  · intro hall
    have hfix := fixup_preserves_empty flag_unconverged flag_diverged_only
      result.iterations max_iterations result.results hall
    have hany : (FixupSolutionWeights flag_unconverged flag_diverged_only
        result.iterations max_iterations result.results).any
          (fun constraint_results => !constraint_results.isEmpty) = false := by
      rw [List.any_eq_false]
      intro cr hcr
      rw [hfix cr hcr]
      simp
    show (st.constraint_solutions ++ [_]).getLast? = some []
    rw [List.getLast?_concat]
    rw [hany]
    simp

/-- Witness for C10 at the empty starting state and a result with empty
constraint results: the four vectors each have one entry afterwards. -/
theorem C10_interval_bookkeeping_witness :
    (SolveCurrentInterval false false false false 50 1 1 1
        ⟨3, 1, []⟩ ⟨[], [], [], []⟩).solutions.length = 1 :=
  (C10_interval_bookkeeping false false false false 50 1 1 1
    ⟨3, 1, []⟩ ⟨[], [], [], []⟩ rfl rfl rfl).1

end DP3
